import Mathlib

/-!
Shallow embedding of the pin-allocation core of ipfs-cluster.

Peer identities (`peer.ID`) are Go strings; we model them by their canonical
string value, so base58 encode/decode round-trips are the identity.  CIDs are
likewise modelled by their canonical string form.  Wall-clock instants are
nanoseconds since the epoch, passed explicitly where the Go code calls
`time.Now()`.  The Go `([]peer.ID, error)` return values are modelled as
`Option (List PeerID) × Option String` (`nil` ↦ `none`), so that both
components are represented independently, exactly as in Go.
-/

abbrev PeerID := String

abbrev CID := String

/-- `api.Metric` (src/api/types.go).  The `Expire` field is an RFC3339Nano
string in Go, with `""` meaning "no expiry set"; well-formed timestamps parse
to an absolute instant and malformed ones are a programmer error (panic), so
we model the field as `Option Nat`: `none` is the empty string and `some t`
a well-formed timestamp denoting instant `t`. -/
structure Metric where
  Name : String
  Peer : PeerID
  Value : String
  Expire : Option Nat
  Valid : Bool
  deriving DecidableEq, Repr

/-- `Metric.Expired` (src/api/types.go): empty expiry is expired; otherwise
Go returns `time.Now().After(exp)`, i.e. the current instant is strictly
after the expiry instant. -/
def Metric.Expired (m : Metric) (now : Nat) : Bool :=
  match m.Expire with
  | none => true
  | some exp => decide (exp < now)

/-- `Metric.Discard` (src/api/types.go): not valid, or expired. -/
def Metric.Discard (m : Metric) (now : Nat) : Bool :=
  !m.Valid || m.Expired now

/-- `api.Pin` (src/api/types.go). -/
structure Pin where
  Cid : CID
  Name : String
  Allocations : List PeerID
  ReplicationFactor : Int
  deriving DecidableEq, Repr

/-- `api.PinSerial` (src/api/types.go). -/
structure PinSerial where
  Cid : String
  Name : String
  Allocations : List String
  Everywhere : Bool
  ReplicationFactor : Int
  deriving DecidableEq, Repr

/-- `api.StringsToPeers` (src/api/types.go): decodes each base58 string to a
`peer.ID`.  Since peers are modelled by their canonical encoding, decoding is
the identity on each element. -/
def StringsToPeers (strs : List String) : List PeerID :=
  strs.map (fun s => s)

/-- `cid.Decode` of the external go-cid library, as used by `PinSerial.ToPin`:
CIDs are modelled by their canonical string form, so decoding is the
identity. -/
def cidDecode (s : String) : CID := s

/-- `PinSerial.ToPin` (src/api/types.go): legacy format management sets the
replication factor to -1 when it is 0 and `Everywhere` is set. -/
def PinSerial.ToPin (pins : PinSerial) : Pin :=
  let rf := if pins.ReplicationFactor = 0 ∧ pins.Everywhere then -1
            else pins.ReplicationFactor
  { Cid := cidDecode pins.Cid
    Name := pins.Name
    Allocations := StringsToPeers pins.Allocations
    ReplicationFactor := rf }

/-- `containsPeer` (repository util helper, called from allocate.go).
Modelled from the spec: the partition in §4.4.2 step 3 tests membership of
`m.Peer` in the blacklist and in the current allocation list. -/
def containsPeer (list : List PeerID) (p : PeerID) : Bool :=
  list.contains p

/-- `minInt` (repository util helper, called from allocate.go).
Modelled from the spec: `min(want, |ranked|)` in §4.4.2 step 5. -/
def minInt (a b : Int) : Int :=
  if a < b then a else b

/-- `logError` (repository util helper, called from allocate.go).
Modelled from the spec: logs the message and returns it as an error value;
§4.5 requires the allocator error to be surfaced "unmodified in kind". -/
def logError (s : String) : String := s

/-- The `errorMsg` built by `allocationError` (allocate.go): the error value
returned is `errors.New` of exactly this string (the CID and the candidate
list are written to the log only). -/
def allocationError (hash : CID) (needed wanted : Int) (candidatesValid : List PeerID) : String :=
  "not enough peers to allocate CID. " ++
    ("Needed at least: " ++ toString needed ++ ". ") ++
    ("Wanted at most: " ++ toString wanted ++ ". ") ++
    ("Valid candidates: " ++ toString candidatesValid.length ++ ". ") ++
    "See logs for more info."

/-- Go map insertion: replace the binding of the key when present, append a
fresh binding otherwise.  Models `m[k] = v` on a `map[peer.ID]api.Metric`,
with insertion order standing in for the Go iteration order. -/
def mapInsert (m : List (PeerID × Metric)) (k : PeerID) (v : Metric) : List (PeerID × Metric) :=
  match m with
  | [] => [(k, v)]
  | (k', v') :: rest => if k' = k then (k, v) :: rest else (k', v') :: mapInsert rest k v

/-- The allocator policy interface (`PinAllocator.Allocate`): given the hash,
current metrics and candidate metrics, return peers ordered by preference, or
an error. -/
abbrev AllocatorFn := CID → List (PeerID × Metric) → List (PeerID × Metric) → Except String (List PeerID)

/-- The pieces of cluster state that `allocate` reads: the clock, the
consensus state snapshot (`none` models `consensus.State()` returning an
error), the consensus leader (`none` models `consensus.Leader()` failing),
the reply of the `PeerMonitorLastMetrics` RPC to the leader, and the
configured allocator component. -/
structure Cluster where
  now : Nat
  state : Option (List (CID × Pin))
  leader : Option PeerID
  rpcMetrics : Except String (List Metric)
  allocator : AllocatorFn

/-- `state.Get` of the consensus state component (not part of the allocation
source files).  Modelled from the spec: "Any pin whose CID is absent from the
state returns an empty list with a zero replication factor" (§4.2). -/
def stateGet (st : List (CID × Pin)) (h : CID) : Pin :=
  (st.lookup h).getD { Cid := h, Name := "", Allocations := [], ReplicationFactor := 0 }

/-- `Cluster.getCurrentAllocations` (allocate.go): on a state error assume
empty; otherwise the allocation list of the pin. -/
def Cluster.getCurrentAllocations (c : Cluster) (h : CID) : List PeerID :=
  match c.state with
  | none => []
  | some st => (stateGet st h).Allocations

/-- `Cluster.getInformerMetrics` (allocate.go): fail when the leader cannot
be determined, otherwise return the result of the last-metrics RPC to the
leader. -/
def Cluster.getInformerMetrics (c : Cluster) : Except String (List Metric) :=
  match c.leader with
  | none => .error "cannot determine leading Monitor"
  | some _ => c.rpcMetrics

/-- One iteration of the metric partition loop in `Cluster.allocate`
(allocate.go): drop a discarded or blacklisted metric, file the rest under
"current" or "candidates" by membership of the peer in the current
allocation list. -/
def divideStep (now : Nat) (blacklist currentAllocs : List PeerID)
    (acc : List (PeerID × Metric) × List (PeerID × Metric)) (m : Metric) :
    List (PeerID × Metric) × List (PeerID × Metric) :=
  if m.Discard now || containsPeer blacklist m.Peer then acc
  else if containsPeer currentAllocs m.Peer then (mapInsert acc.1 m.Peer m, acc.2)
  else (acc.1, mapInsert acc.2 m.Peer m)

/-- The metric partition loop in `Cluster.allocate` (allocate.go). -/
def divideMetrics (now : Nat) (blacklist currentAllocs : List PeerID)
    (metrics : List Metric) :
    List (PeerID × Metric) × List (PeerID × Metric) :=
  metrics.foldl (divideStep now blacklist currentAllocs) ([], [])

/-- `Cluster.obtainAllocations` (allocate.go).  `validAllocations[0 :
len(validAllocations)+wanted]` is `take` of the nonnegative bound (under the
documented preconditions the bound is never negative, so the Go slice cannot
panic). -/
def obtainAllocations (allocator : AllocatorFn) (hash : CID) (rplMin rplMax : Int)
    (currentValidMetrics candidatesMetrics : List (PeerID × Metric)) :
    Option (List PeerID) × Option String :=
  let validAllocations := currentValidMetrics.map Prod.fst
  let nCurrentValid : Int := validAllocations.length
  let needed := rplMin - nCurrentValid
  let wanted := rplMax - nCurrentValid
  if wanted ≤ 0 then
    (some (validAllocations.take (nCurrentValid + wanted).toNat), none)
  else if needed ≤ 0 then
    (none, none)
  else if (candidatesMetrics.length : Int) < needed then
    (none, some (allocationError hash needed wanted (candidatesMetrics.map Prod.fst)))
  else
    match allocator hash currentValidMetrics candidatesMetrics with
    | .error e => (none, some (logError e))
    | .ok finalAllocs =>
      if (finalAllocs.length : Int) < needed then
        (none, some (allocationError hash needed wanted finalAllocs))
      else
        let allocationsToUse := minInt wanted finalAllocs.length
        (some (validAllocations ++ finalAllocs.take allocationsToUse.toNat), none)

/-- `Cluster.allocate` (allocate.go): read current allocations, fetch the
informer metrics (aborting on error), divide the metrics, and obtain the
allocations. -/
def Cluster.allocate (c : Cluster) (hash : CID) (rplMin rplMax : Int)
    (blacklist : List PeerID) : Option (List PeerID) × Option String :=
  let currentAllocs := c.getCurrentAllocations hash
  match c.getInformerMetrics with
  | .error e => (none, some e)
  | .ok metrics =>
    let d := divideMetrics c.now blacklist currentAllocs metrics
    obtainAllocations c.allocator hash rplMin rplMax d.1 d.2

/-! ## Fixtures for concrete evaluations -/

/-- A usable metric for peer `p` (valid, expiring at instant 100). -/
def mkMetric (p : PeerID) : Metric :=
  { Name := "freespace", Peer := p, Value := "100", Expire := some 100, Valid := true }

/-- A cluster whose consensus leader cannot be determined. -/
def clusterNoLeader : Cluster :=
  { now := 50, state := some [], leader := none
    rpcMetrics := .ok [], allocator := fun _ _ _ => .ok [] }

/-- A cluster in which CID "C" is pinned on exactly one peer with a usable
metric, so with replication factors 1/1 the current-valid count equals
`rplMax`. -/
def clusterAtMax : Cluster :=
  { now := 50
    state := some [("C", { Cid := "C", Name := "", Allocations := ["P1"], ReplicationFactor := 1 })]
    leader := some "L"
    rpcMetrics := .ok [mkMetric "P1"]
    allocator := fun _ _ _ => .ok [] }

/-- A cluster with an empty state, three usable candidate metrics, and an
allocator policy ranking every candidate in input order. -/
def clusterFresh : Cluster :=
  { now := 50, state := some [], leader := some "L"
    rpcMetrics := .ok [mkMetric "P1", mkMetric "P2", mkMetric "P3"]
    allocator := fun _ _ cand => .ok (cand.map Prod.fst) }

/-- A cluster like `clusterFresh` but whose allocator deduplicates its
candidate ranking, so it returns duplicate-free sublists of its candidate
input on every input. -/
def clusterDedup : Cluster :=
  { now := 50, state := some [], leader := some "L"
    rpcMetrics := .ok [mkMetric "P1", mkMetric "P2", mkMetric "P3"]
    allocator := fun _ _ cand => .ok (cand.map Prod.fst).dedup }

/-- `clusterDedup` after committing the allocation `[P1, P2, P3]` produced by
its first `allocate` call for CID "C". -/
def clusterDedupCommitted : Cluster :=
  { clusterDedup with
    state := some [("C", { Cid := "C", Name := "", Allocations := ["P1", "P2", "P3"],
                           ReplicationFactor := 3 })] }

/-! ## Theorems -/

/-- C1 (counterexample): at the boundary `nCur == rplMax` (`want == 0`) the
engine does not return a nil result: with one current-valid peer and
`rplMin = rplMax = 1`, `allocate` takes the `wanted <= 0` branch and returns
the full current-valid list with a nil error, not `(nil, nil)`. -/
theorem C1_counterexample :
    Cluster.allocate clusterAtMax "C" 1 1 [] = (some ["P1"], none) ∧
    Cluster.allocate clusterAtMax "C" 1 1 [] ≠ (none, none) := by
  exact ⟨rfl, by decide⟩

/-- Behaviour of `obtainAllocations` in the whole within-bounds region
`rplMin ≤ nCur ≤ rplMax`: nil/nil strictly below `rplMax`, the full
current-valid list at `nCur == rplMax`. -/
theorem obtain_within_bounds_eq (a : AllocatorFn) (hash : CID) (rplMin rplMax : Int)
    (cvm cand : List (PeerID × Metric))
    (hmin : rplMin ≤ (cvm.length : Int)) (hmax : (cvm.length : Int) ≤ rplMax) :
    obtainAllocations a hash rplMin rplMax cvm cand =
      if (cvm.length : Int) = rplMax then (some (cvm.map Prod.fst), none)
      else (none, none) := by
  unfold obtainAllocations
  simp only [List.length_map, sub_nonpos]
  by_cases hEq : (cvm.length : Int) = rplMax
  · have h1 : rplMax ≤ (cvm.length : Int) := le_of_eq hEq.symm
    have hX : ((cvm.length : Int) + (rplMax - (cvm.length : Int))).toNat =
        (cvm.map Prod.fst).length := by
      simp only [List.length_map]
      omega
    rw [if_pos h1, if_pos hEq, hX, List.take_length]
  · have hlt : (cvm.length : Int) < rplMax := lt_of_le_of_ne hmax hEq
    rw [if_neg (not_le.mpr hlt), if_pos hmin, if_neg hEq]

/-- C1 (amended): with `rplMin ≤ nCur ≤ rplMax`, `obtainAllocations` returns
a nil result and nil error when `nCur < rplMax` (`want > 0`), but at
`nCur == rplMax` (`want == 0`) the `wanted <= 0` branch fires first and it
returns the full current-valid list with a nil error. -/
theorem C1_within_bounds (a : AllocatorFn) (hash : CID) (rplMin rplMax : Int)
    (cvm cand : List (PeerID × Metric))
    (hmin : rplMin ≤ (cvm.length : Int)) (hmax : (cvm.length : Int) ≤ rplMax) :
    obtainAllocations a hash rplMin rplMax cvm cand =
      if (cvm.length : Int) = rplMax then (some (cvm.map Prod.fst), none)
      else (none, none) :=
  obtain_within_bounds_eq a hash rplMin rplMax cvm cand hmin hmax

/-- C1 (witness): a concrete within-bounds call (`nCur = 1`, `rplMin = 1`,
`rplMax = 2`) returns a nil result and nil error. -/
theorem C1_witness :
    obtainAllocations (fun _ _ _ => Except.ok []) "C" 1 2 [("P1", mkMetric "P1")] [] =
      (none, none) := by
  have h := C1_within_bounds (fun _ _ _ => Except.ok []) "C" 1 2
    [("P1", mkMetric "P1")] [] (by decide) (by decide)
  simpa using h

/-- C2 (counterexample): a metric whose expiry instant equals the current
instant is NOT expired, because the code uses the strict Go test
`time.Now().After(exp)`; the claim requires it to be treated as expired. -/
theorem C2_counterexample :
    Metric.Expired { Name := "m", Peer := "P1", Value := "v", Expire := some 5, Valid := true } 5
      = false := by
  decide

/-- C2 (amended): `Expired` returns true iff no expiry is set or the current
time is strictly after the expiry instant; at exact equality it returns
false. -/
theorem C2_expired_iff (m : Metric) (now : Nat) :
    Metric.Expired m now = true ↔
      m.Expire = none ∨ ∃ exp, m.Expire = some exp ∧ exp < now := by
  cases h : m.Expire <;> simp [Metric.Expired, h]

/-- C3 (counterexample): the error value returned on insufficient candidates
does not carry the CID nor the candidate list: two calls with different CIDs
and different (equal-length) candidate lists produce identical error
values. -/
theorem C3_counterexample :
    allocationError "cidA" 2 3 ["P1"] = allocationError "cidB" 2 3 ["P2"] ∧
    ("cidA" : CID) ≠ "cidB" ∧ (["P1"] : List PeerID) ≠ ["P2"] :=
  ⟨rfl, by decide, by decide⟩

/-- C3 (amended): the error value carries the needed count, the wanted count
and the NUMBER of valid candidates (each rendered inside its message), and it
depends on nothing else: the CID and the candidate list itself are only
logged, so the error value is unchanged under any CID and any candidate list
of the same length. -/
theorem C3_error_contents (hash : CID) (needed wanted : Int) (cv : List PeerID) :
    (∃ s t, s ++ toString needed ++ t = allocationError hash needed wanted cv) ∧
    (∃ s t, s ++ toString wanted ++ t = allocationError hash needed wanted cv) ∧
    (∃ s t, s ++ toString cv.length ++ t = allocationError hash needed wanted cv) ∧
    ∀ (hash' : CID) (cv' : List PeerID), cv'.length = cv.length →
      allocationError hash' needed wanted cv' = allocationError hash needed wanted cv := by
  refine ⟨⟨"not enough peers to allocate CID. " ++ "Needed at least: ",
           ". " ++ "Wanted at most: " ++ toString wanted ++ ". " ++ "Valid candidates: " ++
             toString cv.length ++ ". " ++ "See logs for more info.", ?_⟩,
          ⟨"not enough peers to allocate CID. " ++ "Needed at least: " ++ toString needed ++
             ". " ++ "Wanted at most: ",
           ". " ++ "Valid candidates: " ++ toString cv.length ++ ". " ++
             "See logs for more info.", ?_⟩,
          ⟨"not enough peers to allocate CID. " ++ "Needed at least: " ++ toString needed ++
             ". " ++ "Wanted at most: " ++ toString wanted ++ ". " ++ "Valid candidates: ",
           ". " ++ "See logs for more info.", ?_⟩, ?_⟩
  · simp only [allocationError, String.append_assoc]
  · simp only [allocationError, String.append_assoc]
  · simp only [allocationError, String.append_assoc]
  · intro hash' cv' hl
    simp [allocationError, hl]

/-- C3 (witness): a concrete pair of calls with different CIDs and candidate
lists of equal length produce the same error value. -/
theorem C3_witness :
    allocationError "x" 1 2 ["a"] = allocationError "y" 1 2 ["b"] :=
  (C3_error_contents "y" 1 2 ["b"]).2.2.2 "x" ["a"] rfl

/-- C8: when the monitor leader cannot be determined, the metric fetch fails
with the no-leader error and `allocate` aborts with that error and a nil
result. -/
theorem C8_no_leader (c : Cluster) (hash : CID) (rplMin rplMax : Int)
    (bl : List PeerID) (h : c.leader = none) :
    c.getInformerMetrics = Except.error "cannot determine leading Monitor" ∧
    c.allocate hash rplMin rplMax bl = (none, some "cannot determine leading Monitor") := by
  have h1 : c.getInformerMetrics = .error "cannot determine leading Monitor" := by
    simp [Cluster.getInformerMetrics, h]
  exact ⟨h1, by simp [Cluster.allocate, h1]⟩

/-- C8 (witness): a concrete leaderless cluster aborts with the no-leader
error and a nil result. -/
theorem C8_witness :
    Cluster.allocate clusterNoLeader "C" 2 3 [] =
      (none, some "cannot determine leading Monitor") :=
  (C8_no_leader clusterNoLeader "C" 2 3 [] rfl).2

/-- C9: `ToPin` maps the legacy `everywhere=true, replication_factor=0` form
to replication factor -1, and preserves any nonzero replication factor. -/
theorem C9_toPin_replication (ps : PinSerial) :
    (ps.Everywhere = true → ps.ReplicationFactor = 0 →
      (PinSerial.ToPin ps).ReplicationFactor = -1) ∧
    (ps.ReplicationFactor ≠ 0 →
      (PinSerial.ToPin ps).ReplicationFactor = ps.ReplicationFactor) := by
  constructor
  · intro he h0
    simp [PinSerial.ToPin, he, h0]
  · intro h0
    simp [PinSerial.ToPin, h0]

/-- C9 (witness): concrete pins exercising the legacy branch and the
preserving branch. -/
theorem C9_witness :
    (PinSerial.ToPin
      { Cid := "c", Name := "n", Allocations := [], Everywhere := true,
        ReplicationFactor := 0 }).ReplicationFactor = -1 ∧
    (PinSerial.ToPin
      { Cid := "c", Name := "n", Allocations := [], Everywhere := true,
        ReplicationFactor := 5 }).ReplicationFactor = 5 :=
  ⟨(C9_toPin_replication _).1 rfl rfl, (C9_toPin_replication _).2 (by decide)⟩

/-- Every `return` in `obtainAllocations` yields a nil result or a nil
error. -/
theorem obtainAllocations_result_shape (a : AllocatorFn) (h : CID) (rMin rMax : Int)
    (cvm cand : List (PeerID × Metric)) :
    (obtainAllocations a h rMin rMax cvm cand).1 = none ∨
    (obtainAllocations a h rMin rMax cvm cand).2 = none := by
  unfold obtainAllocations
  cases ha : a h cvm cand <;> simp only [ha] <;> split_ifs <;> simp

/-- C10: whenever `allocate` returns a non-nil error, the returned peer list
is nil. -/
theorem C10_no_partial_result (c : Cluster) (hash : CID) (rplMin rplMax : Int)
    (bl : List PeerID) (e : String)
    (h : (c.allocate hash rplMin rplMax bl).2 = some e) :
    (c.allocate hash rplMin rplMax bl).1 = none := by
  unfold Cluster.allocate at h ⊢
  cases hm : c.getInformerMetrics with
  | error e' => simp [hm]
  | ok ms =>
    simp only [hm] at h ⊢
    rcases obtainAllocations_result_shape c.allocator hash rplMin rplMax
      (divideMetrics c.now bl (c.getCurrentAllocations hash) ms).1
      (divideMetrics c.now bl (c.getCurrentAllocations hash) ms).2 with h1 | h2
    · exact h1
    · rw [h2] at h
      cases h

/-- C10 (witness): a concrete erroring call returns a nil peer list. -/
theorem C10_witness : (Cluster.allocate clusterNoLeader "C" 2 3 []).1 = none :=
  C10_no_partial_result clusterNoLeader "C" 2 3 [] "cannot determine leading Monitor" rfl

theorem mapInsert_mem_or {l : List (PeerID × Metric)} {k : PeerID} {v : Metric}
    {pr : PeerID × Metric} (h : pr ∈ mapInsert l k v) : pr ∈ l ∨ pr = (k, v) := by
  induction l with
  | nil => simpa [mapInsert] using h
  | cons hd tl ih =>
    obtain ⟨k', v'⟩ := hd
    by_cases hk : k' = k
    · simp only [mapInsert, if_pos hk] at h
      rcases List.mem_cons.mp h with h1 | h1
      · exact Or.inr h1
      · exact Or.inl (List.mem_cons_of_mem _ h1)
    · simp only [mapInsert, if_neg hk] at h
      rcases List.mem_cons.mp h with h1 | h1
      · exact Or.inl (h1 ▸ List.mem_cons_self _ _)
      · rcases ih h1 with h2 | h2
        · exact Or.inl (List.mem_cons_of_mem _ h2)
        · exact Or.inr h2

theorem mapInsert_keys (l : List (PeerID × Metric)) (k : PeerID) (v : Metric) :
    (mapInsert l k v).map Prod.fst =
      if k ∈ l.map Prod.fst then l.map Prod.fst else l.map Prod.fst ++ [k] := by
  induction l with
  | nil => simp [mapInsert]
  | cons hd tl ih =>
    obtain ⟨k', v'⟩ := hd
    by_cases hk : k' = k
    · subst hk
      simp [mapInsert]
    · simp only [mapInsert, if_neg hk, List.map_cons, ih]
      have : (k ∈ k' :: tl.map Prod.fst) ↔ (k ∈ tl.map Prod.fst) := by
        simp [List.mem_cons, Ne.symm hk]
      by_cases hm : k ∈ tl.map Prod.fst
      · simp [hm, this]
      · simp [hm, this]

theorem mapInsert_keys_sub (l : List (PeerID × Metric)) (k : PeerID) (v : Metric) :
    ∀ p, p ∈ (mapInsert l k v).map Prod.fst → p ∈ l.map Prod.fst ∨ p = k := by
  intro p hp
  rw [mapInsert_keys] at hp
  split_ifs at hp with hk
  · exact Or.inl hp
  · rcases List.mem_append.mp hp with h | h
    · exact Or.inl h
    · exact Or.inr (List.mem_singleton.mp h)

theorem mapInsert_keys_mono (l : List (PeerID × Metric)) (k : PeerID) (v : Metric)
    {p : PeerID} (hp : p ∈ l.map Prod.fst) : p ∈ (mapInsert l k v).map Prod.fst := by
  rw [mapInsert_keys]
  split_ifs <;> simp [hp]

theorem mapInsert_keys_self (l : List (PeerID × Metric)) (k : PeerID) (v : Metric) :
    k ∈ (mapInsert l k v).map Prod.fst := by
  rw [mapInsert_keys]
  split_ifs with hk <;> simp [hk]

theorem mapInsert_keys_nodup {l : List (PeerID × Metric)} (k : PeerID) (v : Metric)
    (h : (l.map Prod.fst).Nodup) : ((mapInsert l k v).map Prod.fst).Nodup := by
  rw [mapInsert_keys]
  split_ifs with hk
  · exact h
  · refine List.Nodup.append h (List.nodup_singleton _) ?_
    intro a ha hb
    rw [List.mem_singleton] at hb
    subst hb
    exact hk ha

theorem divideFold_mem (now : Nat) (bl cur : List PeerID) (metrics : List Metric) :
    ∀ (acc : List (PeerID × Metric) × List (PeerID × Metric)) (pr : PeerID × Metric),
      ((pr ∈ (metrics.foldl (divideStep now bl cur) acc).1 →
         pr ∈ acc.1 ∨ (pr.2 ∈ metrics ∧ pr.1 = pr.2.Peer ∧ pr.2.Discard now = false ∧
           containsPeer bl pr.2.Peer = false ∧ containsPeer cur pr.2.Peer = true)) ∧
       (pr ∈ (metrics.foldl (divideStep now bl cur) acc).2 →
         pr ∈ acc.2 ∨ (pr.2 ∈ metrics ∧ pr.1 = pr.2.Peer ∧ pr.2.Discard now = false ∧
           containsPeer bl pr.2.Peer = false ∧ containsPeer cur pr.2.Peer = false))) := by
  induction metrics with
  | nil => intro acc pr; simp
  | cons m ms ih =>
    intro acc pr
    constructor
    · intro hp
      rw [List.foldl_cons] at hp
      rcases (ih _ pr).1 hp with h1 | h1
      · unfold divideStep at h1
        split_ifs at h1 with hd hc
        · exact Or.inl h1
        · rcases mapInsert_mem_or h1 with h2 | h2
          · exact Or.inl h2
          · subst h2
            simp only [Bool.or_eq_true, not_or, Bool.not_eq_true] at hd
            exact Or.inr ⟨List.mem_cons_self _ _, rfl, hd.1, hd.2, hc⟩
        · exact Or.inl h1
      · exact Or.inr ⟨List.mem_cons_of_mem _ h1.1, h1.2.1, h1.2.2.1, h1.2.2.2.1, h1.2.2.2.2⟩
    · intro hp
      rw [List.foldl_cons] at hp
      rcases (ih _ pr).2 hp with h1 | h1
      · unfold divideStep at h1
        split_ifs at h1 with hd hc
        · exact Or.inl h1
        · exact Or.inl h1
        · rcases mapInsert_mem_or h1 with h2 | h2
          · exact Or.inl h2
          · subst h2
            simp only [Bool.or_eq_true, not_or, Bool.not_eq_true] at hd
            simp only [Bool.not_eq_true] at hc
            exact Or.inr ⟨List.mem_cons_self _ _, rfl, hd.1, hd.2, hc⟩
      · exact Or.inr ⟨List.mem_cons_of_mem _ h1.1, h1.2.1, h1.2.2.1, h1.2.2.2.1, h1.2.2.2.2⟩

theorem divideFold_keys_mono (now : Nat) (bl cur : List PeerID) (metrics : List Metric) :
    ∀ (acc : List (PeerID × Metric) × List (PeerID × Metric)) (p : PeerID),
      (p ∈ acc.1.map Prod.fst →
        p ∈ (metrics.foldl (divideStep now bl cur) acc).1.map Prod.fst) ∧
      (p ∈ acc.2.map Prod.fst →
        p ∈ (metrics.foldl (divideStep now bl cur) acc).2.map Prod.fst) := by
  induction metrics with
  | nil => intro acc p; simp
  | cons m ms ih =>
    intro acc p
    constructor <;> intro hp <;> rw [List.foldl_cons]
    · apply (ih _ p).1
      unfold divideStep
      split_ifs
      · exact hp
      · exact mapInsert_keys_mono _ _ _ hp
      · exact hp
    · apply (ih _ p).2
      unfold divideStep
      split_ifs
      · exact hp
      · exact hp
      · exact mapInsert_keys_mono _ _ _ hp

theorem divideFold_keys_complete (now : Nat) (bl cur : List PeerID) (metrics : List Metric) :
    ∀ (acc : List (PeerID × Metric) × List (PeerID × Metric)) (m : Metric),
      m ∈ metrics → m.Discard now = false → containsPeer bl m.Peer = false →
      ((containsPeer cur m.Peer = true →
         m.Peer ∈ (metrics.foldl (divideStep now bl cur) acc).1.map Prod.fst) ∧
       (containsPeer cur m.Peer = false →
         m.Peer ∈ (metrics.foldl (divideStep now bl cur) acc).2.map Prod.fst)) := by
  induction metrics with
  | nil => intro acc m hm; cases hm
  | cons m0 ms ih =>
    intro acc m hm hd hb
    rcases List.mem_cons.mp hm with he | he
    · subst he
      constructor <;> intro hc <;> rw [List.foldl_cons]
      · apply (divideFold_keys_mono now bl cur ms _ m.Peer).1
        simp only [divideStep, hd, hb, hc, Bool.or_self, Bool.false_or, if_true]
        simp only [Bool.false_eq_true, if_false]
        exact mapInsert_keys_self _ _ _
      · apply (divideFold_keys_mono now bl cur ms _ m.Peer).2
        simp only [divideStep, hd, hb, hc, Bool.or_self, Bool.false_or]
        simp only [Bool.false_eq_true, if_false]
        exact mapInsert_keys_self _ _ _
    · rw [List.foldl_cons]
      exact ih _ m he hd hb

theorem divideFold_keys_nodup (now : Nat) (bl cur : List PeerID) (metrics : List Metric) :
    ∀ (acc : List (PeerID × Metric) × List (PeerID × Metric)),
      (acc.1.map Prod.fst).Nodup → (acc.2.map Prod.fst).Nodup →
      ((metrics.foldl (divideStep now bl cur) acc).1.map Prod.fst).Nodup ∧
      ((metrics.foldl (divideStep now bl cur) acc).2.map Prod.fst).Nodup := by
  induction metrics with
  | nil => intro acc h1 h2; exact ⟨h1, h2⟩
  | cons m ms ih =>
    intro acc h1 h2
    rw [List.foldl_cons]
    apply ih
    · unfold divideStep
      split_ifs
      · exact h1
      · exact mapInsert_keys_nodup _ _ h1
      · exact h1
    · unfold divideStep
      split_ifs
      · exact h2
      · exact h2
      · exact mapInsert_keys_nodup _ _ h2

theorem obtain_some_cases (a : AllocatorFn) (h : CID) (rMin rMax : Int)
    (cvm cand : List (PeerID × Metric)) (A : List PeerID)
    (hA : (obtainAllocations a h rMin rMax cvm cand).1 = some A) :
    (rMax ≤ (cvm.length : Int) ∧ A = (cvm.map Prod.fst).take rMax.toNat) ∨
    ((cvm.length : Int) < rMax ∧ 0 < rMin - (cvm.length : Int) ∧
      rMin - (cvm.length : Int) ≤ (cand.length : Int) ∧
      ∃ ranked, a h cvm cand = Except.ok ranked ∧
        rMin - (cvm.length : Int) ≤ (ranked.length : Int) ∧
        A = cvm.map Prod.fst ++
          ranked.take (minInt (rMax - (cvm.length : Int)) (ranked.length : Int)).toNat) := by
  unfold obtainAllocations at hA
  simp only [List.length_map] at hA
  by_cases hw : rMax - (cvm.length : Int) ≤ 0
  · rw [if_pos hw] at hA
    left
    have hXX : ((cvm.length : Int) + (rMax - (cvm.length : Int))).toNat = rMax.toNat := by omega
    rw [hXX] at hA
    exact ⟨by omega, (Option.some.inj hA).symm⟩
  · rw [if_neg hw] at hA
    by_cases hn : rMin - (cvm.length : Int) ≤ 0
    · rw [if_pos hn] at hA
      exact absurd hA (by simp)
    · rw [if_neg hn] at hA
      by_cases hc : (cand.length : Int) < rMin - (cvm.length : Int)
      · rw [if_pos hc] at hA
        exact absurd hA (by simp)
      · rw [if_neg hc] at hA
        right
        refine ⟨by omega, by omega, by omega, ?_⟩
        cases hr : a h cvm cand with
        | error e =>
          simp only [hr] at hA
          exact absurd hA (by simp)
        | ok ranked =>
          simp only [hr] at hA
          by_cases hf : (ranked.length : Int) < rMin - (cvm.length : Int)
          · rw [if_pos hf] at hA
            exact absurd hA (by simp)
          · rw [if_neg hf] at hA
            exact ⟨ranked, rfl, by omega, (Option.some.inj hA).symm⟩

theorem obtain_some_length (a : AllocatorFn) (h : CID) (rMin rMax : Int)
    (cvm cand : List (PeerID × Metric)) (A : List PeerID)
    (h1 : 0 < rMin) (h2 : rMin ≤ rMax)
    (hA : (obtainAllocations a h rMin rMax cvm cand).1 = some A) :
    rMin ≤ (A.length : Int) ∧ (A.length : Int) ≤ rMax := by
  rcases obtain_some_cases a h rMin rMax cvm cand A hA with
    ⟨hw, hEq⟩ | ⟨hw, hn, hc, ranked, hr, hf, hEq⟩
  · subst hEq
    simp only [List.length_take, List.length_map]
    constructor <;> (rw [Nat.min_def]; split_ifs <;> omega)
  · subst hEq
    simp only [List.length_append, List.length_map, List.length_take, minInt]
    split_ifs with hlt <;> (rw [Nat.min_def]; split_ifs <;> constructor <;> omega)

/-- Length bounds for any non-nil allocation returned by `allocate`, under
the documented replication-factor preconditions. -/
theorem allocate_some_length (c : Cluster) (hash : CID) (rplMin rplMax : Int)
    (bl : List PeerID) (A : List PeerID)
    (h1 : 0 < rplMin) (h2 : rplMin ≤ rplMax)
    (hA : (c.allocate hash rplMin rplMax bl).1 = some A) :
    rplMin ≤ (A.length : Int) ∧ (A.length : Int) ≤ rplMax := by
  unfold Cluster.allocate at hA
  cases hm : c.getInformerMetrics with
  | error e => simp [hm] at hA
  | ok ms =>
    simp only [hm] at hA
    exact obtain_some_length _ _ _ _ _ _ _ h1 h2 hA

/-- C5: any non-nil allocation list returned by `allocate` (under the
documented preconditions `0 < rplMin ≤ rplMax`) has length between `rplMin`
and `rplMax`; the "unless impossible" allowance of the claim is not even
needed, since too few usable peers yield an error rather than a short
list. -/
theorem C5_bounds (c : Cluster) (hash : CID) (rplMin rplMax : Int)
    (bl : List PeerID) (A : List PeerID)
    (h1 : 0 < rplMin) (h2 : rplMin ≤ rplMax)
    (hA : (c.allocate hash rplMin rplMax bl).1 = some A) :
    rplMin ≤ (A.length : Int) ∧ (A.length : Int) ≤ rplMax :=
  allocate_some_length c hash rplMin rplMax bl A h1 h2 hA

/-- C5 (witness): a concrete fresh-pin allocation with `rplMin = 2`,
`rplMax = 3` returns 3 peers. -/
theorem C5_witness :
    (2 : Int) ≤ ((["P1", "P2", "P3"] : List PeerID).length : Int) ∧
    ((["P1", "P2", "P3"] : List PeerID).length : Int) ≤ 3 :=
  C5_bounds clusterFresh "C" 2 3 [] ["P1", "P2", "P3"] (by decide) (by decide) rfl

/-- C6: in the expand branch (`need > 0`, enough candidates, the allocator
returned at least `need` ranked peers), the result is exactly the
current-valid peers followed by `min(want, |ranked|)` entries taken from the
front of the ranked list, so the current-valid peers form the front segment
of the returned list. -/
theorem C6_expand (a : AllocatorFn) (hash : CID) (rplMin rplMax : Int)
    (cvm cand : List (PeerID × Metric)) (ranked : List PeerID)
    (h2 : rplMin ≤ rplMax)
    (hneed : 0 < rplMin - (cvm.length : Int))
    (hcand : rplMin - (cvm.length : Int) ≤ (cand.length : Int))
    (hok : a hash cvm cand = Except.ok ranked)
    (hranked : rplMin - (cvm.length : Int) ≤ (ranked.length : Int)) :
    obtainAllocations a hash rplMin rplMax cvm cand =
      (some (cvm.map Prod.fst ++
        ranked.take (minInt (rplMax - (cvm.length : Int)) (ranked.length : Int)).toNat), none) ∧
    ((ranked.take (minInt (rplMax - (cvm.length : Int)) (ranked.length : Int)).toNat).length : Int)
      = minInt (rplMax - (cvm.length : Int)) (ranked.length : Int) := by
  constructor
  · unfold obtainAllocations
    simp only [List.length_map]
    rw [if_neg (by omega), if_neg (by omega), if_neg (by omega)]
    simp only [hok]
    rw [if_neg (by omega)]
  · simp only [List.length_take, minInt]
    split_ifs with hlt <;> (rw [Nat.min_def]; split_ifs <;> omega)

/-- C6 (witness): a concrete expand call returning the current-valid peers
followed by the front of the ranked list. -/
theorem C6_witness :
    obtainAllocations (fun _ _ cand => .ok (cand.map Prod.fst)) "C" 1 2 []
        [("P1", mkMetric "P1"), ("P2", mkMetric "P2"), ("P3", mkMetric "P3")] =
      (some ((([] : List (PeerID × Metric)).map Prod.fst ++
        (["P1", "P2", "P3"] : List PeerID).take
          (minInt (2 - (([] : List (PeerID × Metric)).length : Int))
            ((["P1", "P2", "P3"] : List PeerID).length : Int)).toNat)), none) := by
  have h := C6_expand (fun _ _ cand => .ok (cand.map Prod.fst)) "C" 1 2 []
    [("P1", mkMetric "P1"), ("P2", mkMetric "P2"), ("P3", mkMetric "P3")]
    ["P1", "P2", "P3"] (by decide) (by decide) (by decide) rfl (by decide)
  exact h.1

/-- Every peer of a non-nil allocation is non-blacklisted and backed by a
usable metric among the fetched ones, provided the allocator policy only
returns peers present in its candidate input. -/
theorem allocate_usable (c : Cluster) (hash : CID) (rplMin rplMax : Int)
    (bl : List PeerID) (A : List PeerID) (ms : List Metric)
    (hpolicy : ∀ h cvm cand r, c.allocator h cvm cand = Except.ok r →
      ∀ p, p ∈ r → p ∈ cand.map Prod.fst)
    (hm : c.getInformerMetrics = Except.ok ms)
    (hA : (c.allocate hash rplMin rplMax bl).1 = some A) :
    ∀ p, p ∈ A → containsPeer bl p = false ∧
      ∃ m, m ∈ ms ∧ m.Peer = p ∧ m.Discard c.now = false := by
  unfold Cluster.allocate at hA
  simp only [hm] at hA
  intro p hp
  have hkey : p ∈ (divideMetrics c.now bl (c.getCurrentAllocations hash) ms).1.map Prod.fst ∨
      p ∈ (divideMetrics c.now bl (c.getCurrentAllocations hash) ms).2.map Prod.fst := by
    rcases obtain_some_cases _ _ _ _ _ _ _ hA with
      ⟨hw, hEq⟩ | ⟨_, _, _, ranked, hr, _, hEq⟩
    · subst hEq
      exact Or.inl (List.take_subset _ _ hp)
    · subst hEq
      rcases List.mem_append.mp hp with hin | hin
      · exact Or.inl hin
      · exact Or.inr (hpolicy hash _ _ ranked hr p (List.take_subset _ _ hin))
  rcases hkey with hk | hk
  · rcases List.mem_map.mp hk with ⟨pr, hpr, hpe⟩
    rcases (divideFold_mem c.now bl (c.getCurrentAllocations hash) ms ([], []) pr).1 hpr with
      h0 | hgood
    · cases h0
    · have hpeer : pr.2.Peer = p := by rw [← hgood.2.1, hpe]
      exact ⟨hpeer ▸ hgood.2.2.2.1, pr.2, hgood.1, hpeer, hgood.2.2.1⟩
  · rcases List.mem_map.mp hk with ⟨pr, hpr, hpe⟩
    rcases (divideFold_mem c.now bl (c.getCurrentAllocations hash) ms ([], []) pr).2 hpr with
      h0 | hgood
    · cases h0
    · have hpeer : pr.2.Peer = p := by rw [← hgood.2.1, hpe]
      exact ⟨hpeer ▸ hgood.2.2.2.1, pr.2, hgood.1, hpeer, hgood.2.2.1⟩

/-- C7: under the hypothesis that the allocator policy returns only peers
present in its candidate input, no peer of a non-nil allocation list is
blacklisted and every one carries a usable (non-discarded) metric among the
fetched metrics. -/
theorem C7_clean (c : Cluster) (hash : CID) (rplMin rplMax : Int)
    (bl : List PeerID) (A : List PeerID)
    (hpolicy : ∀ h cvm cand r, c.allocator h cvm cand = Except.ok r →
      ∀ p, p ∈ r → p ∈ cand.map Prod.fst)
    (hA : (c.allocate hash rplMin rplMax bl).1 = some A) :
    ∃ ms, c.getInformerMetrics = Except.ok ms ∧
      ∀ p, p ∈ A → containsPeer bl p = false ∧
        ∃ m, m ∈ ms ∧ m.Peer = p ∧ m.Discard c.now = false := by
  cases hm : c.getInformerMetrics with
  | error e =>
    unfold Cluster.allocate at hA
    simp [hm] at hA
  | ok ms =>
    exact ⟨ms, rfl, allocate_usable c hash rplMin rplMax bl A ms hpolicy hm hA⟩

/-- C7 (witness): a concrete fresh-pin allocation where the policy ranks
exactly its candidate input; each returned peer is non-blacklisted and has a
usable metric. -/
theorem C7_witness :
    ∃ ms, clusterFresh.getInformerMetrics = Except.ok ms ∧
      ∀ p, p ∈ (["P1", "P2", "P3"] : List PeerID) → containsPeer [] p = false ∧
        ∃ m, m ∈ ms ∧ m.Peer = p ∧ m.Discard clusterFresh.now = false :=
  C7_clean clusterFresh "C" 2 3 [] ["P1", "P2", "P3"]
    (by
      intro h cvm cand r hr p hp
      have h2 : Except.ok (ε := String) (cand.map Prod.fst) = Except.ok r := hr
      injection h2 with h3
      subst h3
      exact hp)
    rfl

/-- `containsPeer` is list membership. -/
theorem containsPeer_iff (l : List PeerID) (p : PeerID) :
    containsPeer l p = true ↔ p ∈ l := by
  simp [containsPeer]

/-- Every entry of the "current" bucket of the partition keys a metric of
the input that is usable, not blacklisted, and whose peer is in the current
allocation list. -/
theorem divideMetrics_mem₁ {now : Nat} {bl cur : List PeerID} {ms : List Metric}
    {pr : PeerID × Metric} (h : pr ∈ (divideMetrics now bl cur ms).1) :
    pr.2 ∈ ms ∧ pr.1 = pr.2.Peer ∧ pr.2.Discard now = false ∧
      containsPeer bl pr.2.Peer = false ∧ containsPeer cur pr.2.Peer = true := by
  rcases (divideFold_mem now bl cur ms ([], []) pr).1 h with h0 | h1
  · cases h0
  · exact h1

/-- The keys of the "current" bucket are duplicate-free. -/
theorem divideMetrics_keys_nodup₁ (now : Nat) (bl cur : List PeerID) (ms : List Metric) :
    ((divideMetrics now bl cur ms).1.map Prod.fst).Nodup :=
  (divideFold_keys_nodup now bl cur ms ([], []) (by simp) (by simp)).1

/-- The keys of the "candidates" bucket are duplicate-free. -/
theorem divideMetrics_keys_nodup₂ (now : Nat) (bl cur : List PeerID) (ms : List Metric) :
    ((divideMetrics now bl cur ms).2.map Prod.fst).Nodup :=
  (divideFold_keys_nodup now bl cur ms ([], []) (by simp) (by simp)).2

/-- Every usable, non-blacklisted metric of the input contributes its peer
as a key of the bucket selected by current-list membership. -/
theorem divideMetrics_complete {now : Nat} {bl cur : List PeerID} {ms : List Metric}
    {m : Metric} (hm : m ∈ ms) (hd : m.Discard now = false)
    (hb : containsPeer bl m.Peer = false) :
    (containsPeer cur m.Peer = true →
      m.Peer ∈ (divideMetrics now bl cur ms).1.map Prod.fst) ∧
    (containsPeer cur m.Peer = false →
      m.Peer ∈ (divideMetrics now bl cur ms).2.map Prod.fst) :=
  divideFold_keys_complete now bl cur ms ([], []) m hm hd hb

/-- A non-nil allocation list is duplicate-free, provided the allocator
returns duplicate-free lists of peers drawn from its candidate input. -/
theorem allocate_some_nodup (c : Cluster) (hash : CID) (rplMin rplMax : Int)
    (bl : List PeerID) (A : List PeerID) (ms : List Metric)
    (hpolicy_sub : ∀ h cvm cand r, c.allocator h cvm cand = Except.ok r →
      ∀ p, p ∈ r → p ∈ cand.map Prod.fst)
    (hpolicy_nodup : ∀ h cvm cand r, c.allocator h cvm cand = Except.ok r → r.Nodup)
    (hm : c.getInformerMetrics = Except.ok ms)
    (hA : (c.allocate hash rplMin rplMax bl).1 = some A) : A.Nodup := by
  unfold Cluster.allocate at hA
  simp only [hm] at hA
  rcases obtain_some_cases _ _ _ _ _ _ _ hA with
    ⟨_, hEq⟩ | ⟨_, _, _, ranked, hr, _, hEq⟩
  · subst hEq
    exact List.Nodup.sublist (List.take_sublist _ _)
      (divideMetrics_keys_nodup₁ c.now bl (c.getCurrentAllocations hash) ms)
  · subst hEq
    apply List.Nodup.append
    · exact divideMetrics_keys_nodup₁ c.now bl (c.getCurrentAllocations hash) ms
    · exact List.Nodup.sublist (List.take_sublist _ _) (hpolicy_nodup _ _ _ _ hr)
    · intro p hp1 hp2
      rcases List.mem_map.mp hp1 with ⟨pr, hpr, hpe⟩
      have hfacts := divideMetrics_mem₁ hpr
      have hcur1 : containsPeer (c.getCurrentAllocations hash) p = true := by
        rw [← show pr.2.Peer = p from hfacts.2.1 ▸ hpe]
        exact hfacts.2.2.2.2
      have hp2' : p ∈ (divideMetrics c.now bl (c.getCurrentAllocations hash) ms).2.map Prod.fst :=
        hpolicy_sub _ _ _ ranked hr p (List.take_subset _ _ hp2)
      rcases List.mem_map.mp hp2' with ⟨qr, hqr, hqe⟩
      have hfacts2 := (divideFold_mem c.now bl (c.getCurrentAllocations hash) ms ([], []) qr).2 hqr
      rcases hfacts2 with h0 | hgood
      · cases h0
      · have hcur2 : containsPeer (c.getCurrentAllocations hash) p = false := by
          rw [← show qr.2.Peer = p from hgood.2.1 ▸ hqe]
          exact hgood.2.2.2.2
        rw [hcur1] at hcur2
        cases hcur2

/-- C4 (amended): `allocate` is a pure function of the snapshots, so a
second call against LITERALLY unchanged state returns whatever the first
returned — nil only if the first was nil.  Under the intended reading (the
non-nil result `A` of the first call is committed as the new allocation before
the second call, metrics and clock unchanged, and the allocator returns
duplicate-free lists of peers drawn from its candidates), the second call
returns a nil error, and a nil result whenever `|A| < rplMax`; when
`|A| = rplMax` the `wanted <= 0` boundary fires and the second call instead
returns a permutation of `A` with a nil error. -/
theorem C4_second_call (c c' : Cluster) (hash : CID) (rplMin rplMax : Int)
    (bl : List PeerID) (A : List PeerID)
    (h1 : 0 < rplMin) (h2 : rplMin ≤ rplMax)
    (hpolicy_sub : ∀ h cvm cand r, c.allocator h cvm cand = Except.ok r →
      ∀ p, p ∈ r → p ∈ cand.map Prod.fst)
    (hpolicy_nodup : ∀ h cvm cand r, c.allocator h cvm cand = Except.ok r → r.Nodup)
    (hfirst : (c.allocate hash rplMin rplMax bl).1 = some A)
    (hnow : c'.now = c.now) (hleader : c'.leader = c.leader)
    (hrpc : c'.rpcMetrics = c.rpcMetrics)
    (hcommit : c'.getCurrentAllocations hash = A) :
    (c'.allocate hash rplMin rplMax bl).2 = none ∧
    ((A.length : Int) < rplMax → c'.allocate hash rplMin rplMax bl = (none, none)) ∧
    ((A.length : Int) = rplMax → ∃ L, c'.allocate hash rplMin rplMax bl = (some L, none) ∧
      L.Perm A) := by
  have hms : ∃ ms, c.getInformerMetrics = Except.ok ms := by
    cases hm : c.getInformerMetrics with
    | error e =>
      unfold Cluster.allocate at hfirst
      simp [hm] at hfirst
    | ok ms => exact ⟨ms, rfl⟩
  obtain ⟨ms, hm⟩ := hms
  have hm' : c'.getInformerMetrics = Except.ok ms := by
    unfold Cluster.getInformerMetrics at hm ⊢
    rw [hleader, hrpc]
    exact hm
  have husable := allocate_usable c hash rplMin rplMax bl A ms hpolicy_sub hm hfirst
  have hnodupA := allocate_some_nodup c hash rplMin rplMax bl A ms
    hpolicy_sub hpolicy_nodup hm hfirst
  have hlen := allocate_some_length c hash rplMin rplMax bl A h1 h2 hfirst
  have hkeysub : ∀ p, p ∈ (divideMetrics c.now bl A ms).1.map Prod.fst → p ∈ A := by
    intro p hp
    rcases List.mem_map.mp hp with ⟨pr, hpr, hpe⟩
    have hfacts := divideMetrics_mem₁ hpr
    have : containsPeer A p = true := by
      rw [← show pr.2.Peer = p from hfacts.2.1 ▸ hpe]
      exact hfacts.2.2.2.2
    exact (containsPeer_iff _ _).mp this
  have hkeysup : ∀ p, p ∈ A → p ∈ (divideMetrics c.now bl A ms).1.map Prod.fst := by
    intro p hp
    obtain ⟨hbl, m, hmms, hmp, hmd⟩ := husable p hp
    have hcur : containsPeer A m.Peer = true := (containsPeer_iff _ _).mpr (hmp ▸ hp)
    have hin := (divideMetrics_complete hmms hmd (hmp ▸ hbl)).1 hcur
    exact hmp ▸ hin
  have hkeysnodup := divideMetrics_keys_nodup₁ c.now bl A ms
  have hperm : ((divideMetrics c.now bl A ms).1.map Prod.fst).Perm A := by
    rw [List.perm_ext_iff_of_nodup hkeysnodup hnodupA]
    intro a
    exact ⟨hkeysub a, hkeysup a⟩
  have hcast : (((divideMetrics c.now bl A ms).1.length : Nat) : Int) = (A.length : Int) := by
    have := hperm.length_eq
    simp only [List.length_map] at this
    exact_mod_cast this
  have hsecond : c'.allocate hash rplMin rplMax bl =
      obtainAllocations c'.allocator hash rplMin rplMax
        (divideMetrics c.now bl A ms).1 (divideMetrics c.now bl A ms).2 := by
    unfold Cluster.allocate
    simp only [hm', hcommit, hnow]
  have hwithin := obtain_within_bounds_eq c'.allocator hash rplMin rplMax
    (divideMetrics c.now bl A ms).1 (divideMetrics c.now bl A ms).2
    (by omega) (by omega)
  rw [hsecond, hwithin]
  refine ⟨?_, ?_, ?_⟩
  · split_ifs <;> rfl
  · intro hlt
    rw [if_neg (by omega)]
  · intro heq
    rw [if_pos (by omega)]
    exact ⟨(divideMetrics c.now bl A ms).1.map Prod.fst, rfl, hperm⟩

/-- C4 (counterexample): with state and metrics unchanged, a second
invocation is the same pure computation, so after a first call returning a
non-nil list the second call returns that same non-nil list, not nil; and
even after committing the first result, a second call still returns a
non-nil list when the committed allocation count equals `rplMax`. -/
theorem C4_counterexample :
    Cluster.allocate clusterFresh "C" 2 3 [] = (some ["P1", "P2", "P3"], none) ∧
    Cluster.allocate clusterFresh "C" 2 3 [] ≠ (none, none) ∧
    Cluster.allocate clusterDedupCommitted "C" 2 3 [] ≠ (none, none) := by
  refine ⟨rfl, by decide, by decide⟩

/-- C4 (witness): after committing the 3-peer allocation of the first call with
`rplMax = 4`, the second call returns nil result and nil error. -/
theorem C4_witness :
    Cluster.allocate clusterDedupCommitted "C" 2 4 [] = (none, none) :=
  (C4_second_call clusterDedup clusterDedupCommitted "C" 2 4 [] ["P1", "P2", "P3"]
    (by decide) (by decide)
    (by
      intro h cvm cand r hr p hp
      have h2 : Except.ok (ε := String) ((cand.map Prod.fst).dedup) = Except.ok r := hr
      injection h2 with h3
      subst h3
      exact List.dedup_subset _ hp)
    (by
      intro h cvm cand r hr
      have h2 : Except.ok (ε := String) ((cand.map Prod.fst).dedup) = Except.ok r := hr
      injection h2 with h3
      subst h3
      exact List.nodup_dedup _)
    rfl rfl rfl rfl rfl).2.1 (by decide)
